import Mathlib

/-!
Verification of the Obsidian web-reader markdown rendering pipeline and its
render cache, shallowly embedded from
`src/backend/src/obsidian_reader/services/markdown.py`.

External libraries used by the source (`cachetools.LRUCache`, `hashlib.sha256`,
Pygments) are modelled as follows: the LRU container is embedded directly
(recency-ordered association list, most recently used first, exactly the
observable behaviour of `cachetools.LRUCache` for `getsizeof = 1`); the sha256
digest and the Pygments lexer/highlight functions are passed as function
parameters, since they are external collaborators whose internals are out of
scope.  Python `str` is modelled as `String` (`List Char`); the handful of
Python string methods the source uses (`strip`, `lower`, `replace`,
`startswith`, `endswith`, `title`, `split("\n")`, `"\n".join`) are defined
below on the ASCII fragment the source exercises.
-/

namespace ObsidianMd

/-! ## Python string primitives -/

/-- The characters Python's `str.strip()` (and `\s` on ASCII text) treats as
whitespace: space, tab, newline, vertical tab, form feed, carriage return. -/
def pySpace (c : Char) : Bool :=
  c = ' ' || c = '\t' || c = '\n' || c = '\x0b' || c = '\x0c' || c = '\r'

/-- Remove the maximal all-whitespace suffix of a character list. -/
def trimRightData : List Char → List Char
  | [] => []
  | c :: rest =>
    if (trimRightData rest).isEmpty then (if pySpace c then [] else [c])
    else c :: trimRightData rest

/-- Character-list form of Python `str.strip()`. -/
def pyStripData (l : List Char) : List Char :=
  trimRightData (l.dropWhile pySpace)

/-- Python `s.strip()`. -/
def pyStrip (s : String) : String :=
  String.mk (pyStripData s.data)

/-- Python truthiness of an optional string, collapsing falsy values
(`None` and `""`) to `none`: the net effect of the source's
`x.strip() if x else None` bindings whose every later use is guarded by
`if x:` (or `x or fallback`). -/
def truthyOpt : Option String → Option String
  | some s => if s = "" then none else some s
  | none => none

/-- Python `s[n:]` for a nonnegative index. -/
def strDrop (s : String) (n : Nat) : String :=
  String.mk (s.data.drop n)

/-- `isPrefixData p l` tests whether `p` is a prefix of `l`. -/
def isPrefixData : List Char → List Char → Bool
  | [], _ => true
  | _ :: _, [] => false
  | c :: p, d :: l => c = d && isPrefixData p l

/-- Python `s.startswith(t)`. -/
def pyStartsWith (s t : String) : Bool :=
  isPrefixData t.data s.data

/-- `endsWithData s suf` tests whether `suf` is a suffix of `s`
(Python `s.endswith(suf)`). -/
def endsWithData (s suf : List Char) : Bool :=
  isPrefixData suf.reverse s.reverse

/-- Python `s.lower()` on the ASCII fragment. -/
def pyLower (s : String) : String :=
  String.mk (s.data.map Char.toLower)

/-- Python `s.replace(a, b)` for single-character `a`, `b`. -/
def pyReplaceChar (s : String) (a b : Char) : String :=
  String.mk (s.data.map fun c => if c = a then b else c)

/-- Helper for `pyTitle`: the boolean records whether the previous character
was alphabetic. -/
def pyTitleAux : List Char → Bool → List Char
  | [], _ => []
  | c :: rest, prevAlpha =>
    (if c.isAlpha then (if prevAlpha then c.toLower else c.toUpper) else c)
      :: pyTitleAux rest c.isAlpha

/-- Python `s.title()` on the ASCII fragment: the first letter of each word is
upper-cased, subsequent letters lower-cased. -/
def pyTitle (s : String) : String :=
  String.mk (pyTitleAux s.data false)

/-- `html.escape` on one character (`quote=True`, the default). -/
def htmlEscapeChar (c : Char) : List Char :=
  if c = '&' then "&amp;".data
  else if c = '<' then "&lt;".data
  else if c = '>' then "&gt;".data
  else if c = '"' then "&quot;".data
  else if c = '\'' then "&#x27;".data
  else [c]

/-- Python `html.escape(s)`: the source escapes `&` first and the later
replacements introduce no further `&`, so the sequential replacement is the
character-wise map. -/
def htmlEscape (s : String) : String :=
  String.mk (s.data.flatMap htmlEscapeChar)

/-- Association-list lookup (first binding wins), the observable lookup of the
cache's underlying mapping and of element attribute lists. -/
def lookupAssoc (k : String) : List (String × String) → Option String
  | [] => none
  | (k', v) :: t => if k' = k then some v else lookupAssoc k t

/-- Remove the first binding of key `k` from an association list. -/
def eraseKey (k : String) : List (String × String) → List (String × String)
  | [] => []
  | (k', v) :: t => if k' = k then t else (k', v) :: eraseKey k t

/-- Split a character list at newline characters (Python `s.split("\n")`);
always returns at least one piece. -/
def splitNlData : List Char → List (List Char)
  | [] => [[]]
  | c :: rest =>
    if c = '\n' then [] :: splitNlData rest
    else
      match splitNlData rest with
      | [] => [[c]]
      | h :: t => (c :: h) :: t

/-- Python `s.split("\n")`. -/
def splitNl (s : String) : List String :=
  (splitNlData s.data).map String.mk

/-- Python `"\n".join(lines)`. -/
def joinNl : List String → String
  | [] => ""
  | [s] => s
  | s :: rest => s ++ "\n" ++ joinNl rest

/-! ## `datetime` and cache keys

`MarkdownCache._make_key` builds `f"{vault_id}:{note_path}:{mtime_str}"`, where
`mtime_str` is `modified_at.isoformat()` or the sentinel `"none"`, and returns
`hashlib.sha256(key_data.encode()).hexdigest()`.  `hashlib` is an external
library, so the digest is a function parameter; the key *data* is embedded
exactly. -/

/-- The fields of a Python `datetime.datetime` (naive, no tzinfo, as the
vault collaborator supplies). -/
structure PyDateTime where
  year : Nat
  month : Nat
  day : Nat
  hour : Nat
  minute : Nat
  second : Nat
  microsecond : Nat
deriving DecidableEq, Repr

/-- The range invariants Python's `datetime` constructor enforces. -/
def PyDateTime.valid (dt : PyDateTime) : Prop :=
  1 ≤ dt.year ∧ dt.year ≤ 9999 ∧ 1 ≤ dt.month ∧ dt.month ≤ 12 ∧
  1 ≤ dt.day ∧ dt.day ≤ 31 ∧ dt.hour ≤ 23 ∧ dt.minute ≤ 59 ∧
  dt.second ≤ 59 ∧ dt.microsecond ≤ 999999

instance (dt : PyDateTime) : Decidable dt.valid :=
  inferInstanceAs (Decidable (_ ∧ _))

/-- The valid-datetime predicate lifted to `Option` (a `None` timestamp is a
legitimate input). -/
def optValid : Option PyDateTime → Prop
  | none => True
  | some dt => dt.valid

instance : ∀ m : Option PyDateTime, Decidable (optValid m)
  | none => .isTrue trivial
  | some dt => inferInstanceAs (Decidable dt.valid)

/-- The decimal digit character for a digit value. -/
def digitChar (n : Nat) : Char :=
  Char.ofNat (48 + n)

/-- `w`-wide zero-padded decimal rendering (as `"%04d" % n` for `n < 10^w`). -/
def padDigits : Nat → Nat → List Char
  | 0, _ => []
  | w + 1, n => padDigits w (n / 10) ++ [digitChar (n % 10)]

/-- Decimal value of a digit string (the inverse of `padDigits`). -/
def unpadAux (a : Nat) : List Char → Nat
  | [] => a
  | c :: rest => unpadAux (10 * a + (c.toNat - 48)) rest

/-- The microsecond suffix of `datetime.isoformat()`: printed only when
nonzero. -/
def microPart (micro : Nat) : List Char :=
  if micro = 0 then [] else '.' :: padDigits 6 micro

/-- `datetime.isoformat()`, character-list form:
`YYYY-MM-DDTHH:MM:SS[.ffffff]`. -/
def isoformatData (dt : PyDateTime) : List Char :=
  padDigits 4 dt.year ++ '-' ::
    (padDigits 2 dt.month ++ '-' ::
      (padDigits 2 dt.day ++ 'T' ::
        (padDigits 2 dt.hour ++ ':' ::
          (padDigits 2 dt.minute ++ ':' ::
            (padDigits 2 dt.second ++ microPart dt.microsecond)))))

/-- `datetime.isoformat()`. -/
def isoformat (dt : PyDateTime) : String :=
  String.mk (isoformatData dt)

/-- `mtime_str = modified_at.isoformat() if modified_at else "none"`. -/
def mtimeStr : Option PyDateTime → String
  | some dt => isoformat dt
  | none => "none"

/-- `key_data = f"{vault_id}:{note_path}:{mtime_str}"`. -/
def keyData (vault_id note_path : String) (modified_at : Option PyDateTime) : String :=
  vault_id ++ ":" ++ note_path ++ ":" ++ mtimeStr modified_at

/-- `MarkdownCache._make_key`: digest of the key data.  The sha256 hex digest
(an external `hashlib` function) is the `hash` parameter. -/
def makeKey (hash : String → String) (vault_id note_path : String)
    (modified_at : Option PyDateTime) : String :=
  hash (keyData vault_id note_path modified_at)

/-! ## The render cache -/

/-- `CacheStats` dataclass. -/
structure CacheStats where
  hits : Nat
  misses : Nat
  size : Nat
  max_size : Nat
deriving DecidableEq, Repr

/-- `CacheStats.hit_rate`: `hits / (hits + misses) * 100`, and `0.0` when no
request has been made (the only branch ever needing exact arithmetic here is
the zero-total one, which Python returns literally). -/
def CacheStats.hit_rate (s : CacheStats) : Rat :=
  if s.hits + s.misses > 0 then (s.hits : Rat) / ((s.hits : Rat) + (s.misses : Rat)) * 100
  else 0

/-- `MarkdownCache` state: the `cachetools.LRUCache` contents as a
recency-ordered association list (most recently used first) plus the hit/miss
counters and the capacity. -/
structure MarkdownCache where
  store : List (String × String)
  hits : Nat
  misses : Nat
  maxSize : Nat
deriving DecidableEq, Repr

/-- `MarkdownCache.get`: look the derived key up; a hit bumps the hit counter
and refreshes the entry's recency (the `LRUCache.__getitem__` touch); a miss
bumps the miss counter. -/
def cacheGet (hash : String → String) (st : MarkdownCache) (vault_id note_path : String)
    (modified_at : Option PyDateTime) : Option String × MarkdownCache :=
  let key := makeKey hash vault_id note_path modified_at
  match lookupAssoc key st.store with
  | some html =>
    (some html, { st with hits := st.hits + 1, store := (key, html) :: eraseKey key st.store })
  | none => (none, { st with misses := st.misses + 1 })

/-- `MarkdownCache.set`: store under the derived key.  An existing key is
updated and refreshed; a new key is inserted most-recent, evicting from the
least-recently-used end while over capacity (`cachetools` raises on
`maxsize = 0`, so the model is used with `1 ≤ maxSize`). -/
def cacheSet (hash : String → String) (st : MarkdownCache) (vault_id note_path : String)
    (modified_at : Option PyDateTime) (html_content : String) : MarkdownCache :=
  let key := makeKey hash vault_id note_path modified_at
  if (lookupAssoc key st.store).isSome then
    { st with store := (key, html_content) :: eraseKey key st.store }
  else
    { st with store := (key, html_content) :: st.store.take (st.maxSize - 1) }

/-- `MarkdownCache.invalidate`: with no note path, clears the whole store and
returns the number of entries removed; with a specific note path it does
nothing and returns 0 (the keys are hashed, so the entry cannot be found). -/
def invalidate (st : MarkdownCache) (_vault_id : String) (note_path : Option String) :
    Nat × MarkdownCache :=
  match note_path with
  | none => (st.store.length, { st with store := [] })
  | some _ => (0, st)

/-- `MarkdownCache.clear`: empty the store and reset both counters
(returns `None` in the source). -/
def cacheClear (st : MarkdownCache) : MarkdownCache :=
  { st with store := [], hits := 0, misses := 0 }

/-- `MarkdownCache.get_stats`. -/
def getStats (st : MarkdownCache) : CacheStats :=
  { hits := st.hits, misses := st.misses, size := st.store.length, max_size := st.maxSize }

/-! ## The callout preprocessor

`CalloutPreprocessor.run` walks the lines; on a header matching
`CALLOUT_PATTERN = r"^>\\s*\\[!(\\w+)\\]([+-])?(?:\\s*(.*))?$"` it consumes the
following block-quote lines, rewrites them with
`lines[i][1:].strip()` (plus a dead one-space check, kept below), and emits
the callout HTML block split back into lines. -/

/-- `\w` on ASCII: letters, digits, underscore. -/
def isWordChar (c : Char) : Bool :=
  c.isAlphanum || c = '_'

/-- Match of `CALLOUT_PATTERN` against one line: the raw type group, the
optional collapse marker, and the title group (rest of the line after the
greedy `\s*`; the empty string when nothing follows).  The regex is
deterministic: every quantifier in it is greedy and no backtracked
alternative can succeed, so a direct scan is its exact semantics. -/
def matchCalloutHeader (s : String) : Option (String × Option Char × String) :=
  match s.data with
  | '>' :: r0 =>
    match r0.dropWhile pySpace with
    | '[' :: '!' :: r2 =>
      let w := r2.takeWhile isWordChar
      if w.isEmpty then none
      else
        match r2.drop w.length with
        | ']' :: '+' :: r4 => some (String.mk w, some '+', String.mk (r4.dropWhile pySpace))
        | ']' :: '-' :: r4 => some (String.mk w, some '-', String.mk (r4.dropWhile pySpace))
        | ']' :: r4 => some (String.mk w, none, String.mk (r4.dropWhile pySpace))
        | _ => none
    | _ => none
  | _ => none

/-- The continuation-line rewrite of `CalloutPreprocessor.run`:
`content = lines[i][1:].strip()`, then drop one leading space if present
(dead after `strip`, but in the source). -/
def consumeTransform (l : String) : String :=
  let content := pyStrip (strDrop l 1)
  if pyStartsWith content " " then strDrop content 1 else content

/-- The `CALLOUT_TYPES` lookup table: type → (icon, css class). -/
def calloutTypes : List (String × String × String) :=
  [("note", "📝", "callout-note"),
   ("abstract", "📋", "callout-note"),
   ("summary", "📋", "callout-note"),
   ("tldr", "📋", "callout-note"),
   ("info", "ℹ️", "callout-info"),
   ("todo", "☑️", "callout-info"),
   ("tip", "💡", "callout-tip"),
   ("hint", "💡", "callout-tip"),
   ("important", "🔥", "callout-tip"),
   ("success", "✅", "callout-tip"),
   ("check", "✅", "callout-tip"),
   ("done", "✅", "callout-tip"),
   ("question", "❓", "callout-warning"),
   ("help", "❓", "callout-warning"),
   ("faq", "❓", "callout-warning"),
   ("warning", "⚠️", "callout-warning"),
   ("caution", "⚠️", "callout-warning"),
   ("attention", "⚠️", "callout-warning"),
   ("failure", "❌", "callout-danger"),
   ("fail", "❌", "callout-danger"),
   ("missing", "❌", "callout-danger"),
   ("danger", "⛔", "callout-danger"),
   ("error", "🚫", "callout-danger"),
   ("bug", "🐛", "callout-danger"),
   ("example", "📎", "callout-example"),
   ("quote", "💬", "callout-quote"),
   ("cite", "💬", "callout-quote")]

/-- Build one callout HTML block (the f-string of the source, with
`content_html = "\n".join(content_lines)`) and split it back into lines. -/
def calloutHtmlLines (callout_type g3 : String) (contentLines : List String) : List String :=
  let title := if g3 = "" then pyTitle callout_type else g3
  let pair := (calloutTypes.lookup callout_type).getD ("📌", "callout-note")
  let contentHtml := joinNl contentLines
  splitNl ("\n<div class=\"callout " ++ pair.2 ++ "\">\n<div class=\"callout-title\">"
    ++ pair.1 ++ " " ++ htmlEscape title ++ "</div>\n<div class=\"callout-content\">\n\n"
    ++ contentHtml ++ "\n\n</div>\n</div>\n")

/-- `CalloutPreprocessor.run`: the while-loop over lines as recursion; a
matched header consumes the maximal run of following `>`-lines. -/
def calloutRun : List String → List String
  | [] => []
  | line :: rest =>
    match matchCalloutHeader line with
    | some (g1, _g2, g3) =>
      calloutHtmlLines (pyLower g1) g3
        ((rest.takeWhile fun l => pyStartsWith l ">").map consumeTransform)
        ++ calloutRun (rest.dropWhile fun l => pyStartsWith l ">")
    | none => line :: calloutRun rest
termination_by lines => lines.length
decreasing_by
  · exact Nat.lt_succ_of_le (List.dropWhile_suffix _).length_le
  · exact Nat.lt_succ_of_le (Nat.le_refl _)

/-- The continuation transformation as claim C3 words it (stated from the
claim, for comparison): remove exactly the leading `>` and at most one
immediately following space, leaving the rest of the line unchanged. -/
def specContinuationStrip (l : String) : String :=
  let r := strDrop l 1
  if pyStartsWith r " " then strDrop r 1 else r

/-! ## The embed preprocessor

`EmbedPreprocessor.run` applies
`EMBED_PATTERN = r"!\[\[([^\]|#]+)(?:#([^\]|]+))?(?:\|([^\]]+))?\]\]"`
as a leftmost, non-overlapping `re.sub` over each line, replacing every match
with `_replace_embed`.  Every quantifier in the pattern is greedy over a
character class excluding its follow set, so backtracking can never produce a
different match: the direct scan below is the exact regex semantics. -/

/-- `[^\]|#]` (a target character). -/
def embedTargetChar (c : Char) : Bool :=
  !(c = ']' || c = '|' || c = '#')

/-- `[^\]|]` (a heading character). -/
def embedHeadingChar (c : Char) : Bool :=
  !(c = ']' || c = '|')

/-- Final `\]\]` of the embed pattern: returns the groups with the remainder
after the match. -/
def embedClose (t : List Char) (h a : Option (List Char)) :
    List Char → Option ((String × Option String × Option String) × List Char)
  | ']' :: ']' :: rest => some ((String.mk t, h.map String.mk, a.map String.mk), rest)
  | _ => none

/-- Optional `(?:\|([^\]]+))?` part, then the close. -/
def embedAliasPart (t : List Char) (h : Option (List Char)) (r : List Char) :
    Option ((String × Option String × Option String) × List Char) :=
  match r with
  | '|' :: r2 =>
    let a := r2.takeWhile fun c => !(c = ']')
    if a.isEmpty then none else embedClose t (h) (some a) (r2.drop a.length)
  | _ => embedClose t h none r

/-- The embed pattern after its literal `![[`: greedy nonempty target,
optional `#heading`, optional `|alias`, then `]]`. -/
def matchEmbedAfterBrackets (l : List Char) :
    Option ((String × Option String × Option String) × List Char) :=
  let t := l.takeWhile embedTargetChar
  if t.isEmpty then none
  else
    match l.drop t.length with
    | '#' :: r2 =>
      let h := r2.takeWhile embedHeadingChar
      if h.isEmpty then none else embedAliasPart t (some h) (r2.drop h.length)
    | r1 => embedAliasPart t none r1

/-- Embed match attempt at a position whose character is `'!'`: the rest must
open with `[[`. -/
def matchEmbedTail (rest : List Char) :
    Option ((String × Option String × Option String) × List Char) :=
  match rest with
  | '[' :: '[' :: r => matchEmbedAfterBrackets r
  | _ => none

theorem embedClose_length_le (t : List Char) (h a : Option (List Char)) (r : List Char)
    {g : String × Option String × Option String} {rem : List Char}
    (hm : embedClose t h a r = some (g, rem)) : rem.length ≤ r.length := by
  unfold embedClose at hm
  split at hm
  · injection hm with hm
    rw [show rem = (g, rem).2 from rfl, ← hm]
    simp
    omega
  · cases hm

theorem embedAliasPart_length_le (t : List Char) (h : Option (List Char)) (r : List Char)
    {g : String × Option String × Option String} {rem : List Char}
    (hm : embedAliasPart t h r = some (g, rem)) : rem.length ≤ r.length := by
  simp only [embedAliasPart] at hm
  split at hm
  · rename_i r2
    split at hm
    · cases hm
    · have h1 := embedClose_length_le _ _ _ _ hm
      have h2 : (r2.drop (r2.takeWhile fun c => !(c = ']')).length).length ≤ r2.length := by
        rw [List.length_drop]
        omega
      simp only [List.length_cons]
      omega
  · exact embedClose_length_le _ _ _ _ hm

theorem matchEmbedAfterBrackets_length_le (l : List Char)
    {g : String × Option String × Option String} {rem : List Char}
    (hm : matchEmbedAfterBrackets l = some (g, rem)) : rem.length ≤ l.length := by
  simp only [matchEmbedAfterBrackets] at hm
  split at hm
  · cases hm
  · split at hm
    · rename_i r2 heq
      split at hm
      · cases hm
      · have h1 := embedAliasPart_length_le _ _ _ hm
        have h2 : ('#' :: r2).length = (l.drop (l.takeWhile embedTargetChar).length).length := by
          rw [heq]
        have h3 : ((r2.drop (r2.takeWhile embedHeadingChar).length)).length ≤ r2.length := by
          rw [List.length_drop]
          omega
        rw [List.length_drop] at h2
        simp only [List.length_cons] at h2
        omega
    · have h1 := embedAliasPart_length_le _ _ _ hm
      rw [List.length_drop] at h1
      omega

theorem matchEmbedTail_length_le (rest : List Char)
    {g : String × Option String × Option String} {rem : List Char}
    (hm : matchEmbedTail rest = some (g, rem)) : rem.length ≤ rest.length := by
  unfold matchEmbedTail at hm
  split at hm
  · have h1 := matchEmbedAfterBrackets_length_le _ hm
    simp only [List.length_cons]
    omega
  · cases hm

/-- The fixed image-extension set of `_replace_embed` (a `frozenset` in
spirit; iteration order of the Python set literal is irrelevant to `any`). -/
def imageExtensions : List String :=
  [".png", ".jpg", ".jpeg", ".gif", ".webp", ".svg", ".bmp"]

/-- `is_image = any(target.lower().endswith(ext) for ext in image_extensions)`. -/
def isImage (target : String) : Bool :=
  imageExtensions.any fun ext => endsWithData (pyLower target).data ext.data

/-- `EmbedPreprocessor._replace_embed` on the three match groups: heading and
alias are stripped and then used only through Python truthiness tests
(`alias or target`, `if heading:`), so a group that strips to `""` behaves
as absent (`truthyOpt`).  The literal f-string is split at interpolation
points (and at its embedded line break) into the concatenation below. -/
def replaceEmbed (g1 : String) (g2 g3 : Option String) : String :=
  let target := pyStrip g1
  let heading := truthyOpt (g2.map pyStrip)
  let aliasStr := truthyOpt (g3.map pyStrip)
  if isImage target then
    "<img src=\"/api/vault/attachment/" ++ htmlEscape target ++ "\" alt=\""
      ++ htmlEscape (aliasStr.getD target)
      ++ "\" class=\"embedded-image max-w-full h-auto rounded-lg\" loading=\"lazy\">"
  else
    let display := htmlEscape (aliasStr.getD target)
      ++ (match heading with
          | some hd => " > " ++ htmlEscape hd
          | none => "")
    let headingAttr :=
      match heading with
      | some hd => " data-embed-heading=\"" ++ htmlEscape hd ++ "\""
      | none => ""
    "<div class=\"embedded-note border-l-4 border-accent-400 pl-4 my-4 bg-obsidian-100 dark:bg-obsidian-800 rounded-r-lg p-4\" data-embed-target=\""
      ++ htmlEscape target ++ "\"" ++ headingAttr ++ ">\n"
      ++ "<a href=\"/note/" ++ htmlEscape target
      ++ "\" class=\"internal-link font-medium\">📄 " ++ display ++ "</a>\n</div>"

/-- `re.sub(EMBED_PATTERN, _replace_embed, line)`: scan left to right; a full
match starting at the current position is consumed whole and replaced,
otherwise advance one character. -/
def embedSubData : List Char → List Char
  | [] => []
  | c :: rest =>
    if c = '!' then
      match hm : matchEmbedTail rest with
      | some (g, rem) => (replaceEmbed g.1 g.2.1 g.2.2).data ++ embedSubData rem
      | none => c :: embedSubData rest
    else c :: embedSubData rest
termination_by l => l.length
decreasing_by
  · exact Nat.lt_succ_of_le (matchEmbedTail_length_le rest hm)
  · exact Nat.lt_succ_of_le (Nat.le_refl _)
  · exact Nat.lt_succ_of_le (Nat.le_refl _)

/-- The `#heading` fragment of an embed as written in the source text. -/
def embedHeadingText : Option (List Char) → List Char
  | some hs => '#' :: hs
  | none => []

/-- The `|alias` fragment of an embed as written in the source text. -/
def embedAliasText : Option (List Char) → List Char
  | some as => '|' :: as
  | none => []

/-- Checker for the absence of an `<img` tag: every `'<'` must be followed
immediately by `'d'`, `'a'` or `'/'` (as in `<div`, `<a`, `</...>`). -/
def ltFollowOk : List Char → Bool
  | [] => true
  | c :: rest =>
    (if c = '<' then
       match rest with
       | c' :: _ => c' = 'd' || c' = 'a' || c' = '/'
       | [] => false
     else true) && ltFollowOk rest

/-- `EmbedPreprocessor.run`: the substitution applied to every line. -/
def embedRun (lines : List String) : List String :=
  lines.map fun l => String.mk (embedSubData l.data)

/-- The preprocessor registrations of `ObsidianExtension.extendMarkdown`
(name, priority): embed at 35, callout at 30, block math at 25; all
preprocessors run before the inline patterns below. -/
def obsidianPreprocessors : List (String × Nat) :=
  [("embed", 35), ("callout", 30), ("block_math", 25)]

/-- The inline-pattern registrations of `ObsidianExtension.extendMarkdown`. -/
def obsidianInlinePatterns : List (String × Nat) :=
  [("wiki_link", 200), ("tag", 198), ("inline_math", 197)]

/-! ## The wiki-link inline processor -/

/-- An element-tree node as built by the inline processors (tag, attributes in
insertion order, text). -/
structure HtmlElement where
  tag : String
  attrs : List (String × String)
  text : String
deriving DecidableEq, Repr

/-- `WikiLinkInlineProcessor.handleMatch` on the groups of
`WIKI_LINK_PATTERN = r"\[\[([^\]|#]+)(?:#([^\]|]+))?(?:\|([^\]]+))?\]\]"`:
heading and alias are stripped and used only through `if heading:` /
`if alias:` truthiness, so a group that strips to `""` behaves as absent
(`truthyOpt`). -/
def wikiLinkHandleMatch (g1 : String) (g2 g3 : Option String) : HtmlElement :=
  let target := pyStrip g1
  let heading := truthyOpt (g2.map pyStrip)
  let aliasStr := truthyOpt (g3.map pyStrip)
  let href := "/note/" ++ target
    ++ (match heading with
        | some hd => "#" ++ pyReplaceChar (pyLower hd) ' ' '-'
        | none => "")
  { tag := "a"
    attrs := [("class", "internal-link"), ("href", href), ("data-target", target)]
    text :=
      match aliasStr with
      | some al => al
      | none =>
        match heading with
        | some hd => target ++ " > " ++ hd
        | none => target }

/-! ## The code highlighter

Pygments is an external library: lexer resolution (which raises
`ClassNotFound` on failure, modelled as `Except`) and the `highlight` call are
function parameters over an abstract lexer type `L`. -/

/-- `CodeBlockFormatter.highlight_code`: the `try` block resolves a lexer
(by name when a language is truthy, by content detection otherwise); any
resolution failure falls back to `TextLexer`. -/
def highlightCode {L : Type} (getLexerByName guessLexer : String → Except Unit L)
    (textLexer : L) (pygHighlight : String → L → String)
    (code : String) (language : Option String) : String :=
  let resolved : Except Unit L :=
    match language with
    | some lang => if lang = "" then guessLexer code else getLexerByName lang
    | none => guessLexer code
  match resolved with
  | .ok lexer => pygHighlight code lexer
  | .error _ => pygHighlight code textLexer

/-- The fenced-code replacement of `MarkdownService._highlight_code_blocks`:
`language = match.group(1) or ""`; a truthy language goes through
`highlight_code`, otherwise the block is HTML-escaped into `<pre><code>`. -/
def replaceCodeBlock {L : Type} (getLexerByName guessLexer : String → Except Unit L)
    (textLexer : L) (pygHighlight : String → L → String)
    (language code : String) : String :=
  if language ≠ "" then
    "<div class=\"code-block\">"
      ++ highlightCode getLexerByName guessLexer textLexer pygHighlight code (some language)
      ++ "</div>"
  else
    "<div class=\"code-block\"><pre><code>" ++ htmlEscape code ++ "</code></pre></div>"

/-- `MarkdownService.render_cached`: probe the cache; on a hit return the
cached HTML without rendering; on a miss render (`render` is the pipeline,
passed as a function), store, and return. -/
def renderCached (hash : String → String) (render : String → String) (st : MarkdownCache)
    (content vault_id note_path : String) (modified_at : Option PyDateTime) :
    String × MarkdownCache :=
  match cacheGet hash st vault_id note_path modified_at with
  | (some cached, st') => (cached, st')
  | (none, st') =>
    let html := render content
    (html, cacheSet hash st' vault_id note_path modified_at html)

end ObsidianMd

namespace ObsidianMd

/-! ## Theorems: the render cache -/

theorem lookupAssoc_cons_self (k v : String) (t : List (String × String)) :
    lookupAssoc k ((k, v) :: t) = some v := by
  simp [lookupAssoc]

/-- C1: for a key not yet cached, `render_cached` renders and stores on the
first call (one miss), and the second call returns the identical stored HTML
with one hit, without invoking the pipeline (its result does not depend on the
render function at all). -/
theorem c1_render_cached_roundtrip
    (hash render : String → String) (st : MarkdownCache)
    (content vault_id note_path : String) (modified_at : Option PyDateTime)
    (habsent : lookupAssoc (makeKey hash vault_id note_path modified_at) st.store = none)
    (hcap : 1 ≤ st.maxSize) :
    (renderCached hash render st content vault_id note_path modified_at).1 = render content
    ∧ (renderCached hash render st content vault_id note_path modified_at).2.misses
        = st.misses + 1
    ∧ (renderCached hash render st content vault_id note_path modified_at).2.hits = st.hits
    ∧ lookupAssoc (makeKey hash vault_id note_path modified_at)
        (renderCached hash render st content vault_id note_path modified_at).2.store
        = some (render content)
    ∧ (renderCached hash render
        (renderCached hash render st content vault_id note_path modified_at).2
        content vault_id note_path modified_at).1 = render content
    ∧ (renderCached hash render
        (renderCached hash render st content vault_id note_path modified_at).2
        content vault_id note_path modified_at).2.hits = st.hits + 1
    ∧ (renderCached hash render
        (renderCached hash render st content vault_id note_path modified_at).2
        content vault_id note_path modified_at).2.misses = st.misses + 1
    ∧ ∀ render' : String → String,
        renderCached hash render'
          (renderCached hash render st content vault_id note_path modified_at).2
          content vault_id note_path modified_at
        = renderCached hash render
            (renderCached hash render st content vault_id note_path modified_at).2
            content vault_id note_path modified_at := by
  have hmiss : renderCached hash render st content vault_id note_path modified_at
      = (render content,
         { st with
            misses := st.misses + 1
            store := (makeKey hash vault_id note_path modified_at, render content)
              :: st.store.take (st.maxSize - 1) }) := by
    simp only [renderCached, cacheGet, cacheSet, habsent, Option.isSome_none,
      Bool.false_eq_true, if_false]
  rw [hmiss]
  have hhit : ∀ render' : String → String,
      renderCached hash render'
        { st with
           misses := st.misses + 1
           store := (makeKey hash vault_id note_path modified_at, render content)
             :: st.store.take (st.maxSize - 1) }
        content vault_id note_path modified_at
      = (render content,
         { st with
            misses := st.misses + 1
            hits := st.hits + 1
            store := (makeKey hash vault_id note_path modified_at, render content)
              :: eraseKey (makeKey hash vault_id note_path modified_at)
                   ((makeKey hash vault_id note_path modified_at, render content)
                     :: st.store.take (st.maxSize - 1)) }) := by
    intro render'
    simp only [renderCached, cacheGet, lookupAssoc_cons_self]
  simp [hhit, lookupAssoc_cons_self]

/-- Witness for C1 at a concrete input. -/
theorem c1_render_cached_roundtrip_witness :
    (renderCached id (fun s => s ++ "!") ⟨[], 0, 0, 1⟩ "x" "v" "p" none).1 = "x!"
    ∧ (renderCached id (fun s => s ++ "!") ⟨[], 0, 0, 1⟩ "x" "v" "p" none).2.misses = 0 + 1
    ∧ (renderCached id (fun s => s ++ "!") ⟨[], 0, 0, 1⟩ "x" "v" "p" none).2.hits = 0
    ∧ lookupAssoc (makeKey id "v" "p" none)
        (renderCached id (fun s => s ++ "!") ⟨[], 0, 0, 1⟩ "x" "v" "p" none).2.store
        = some "x!"
    ∧ (renderCached id (fun s => s ++ "!")
        (renderCached id (fun s => s ++ "!") ⟨[], 0, 0, 1⟩ "x" "v" "p" none).2
        "x" "v" "p" none).1 = "x!"
    ∧ (renderCached id (fun s => s ++ "!")
        (renderCached id (fun s => s ++ "!") ⟨[], 0, 0, 1⟩ "x" "v" "p" none).2
        "x" "v" "p" none).2.hits = 0 + 1
    ∧ (renderCached id (fun s => s ++ "!")
        (renderCached id (fun s => s ++ "!") ⟨[], 0, 0, 1⟩ "x" "v" "p" none).2
        "x" "v" "p" none).2.misses = 0 + 1
    ∧ ∀ render' : String → String,
        renderCached id render'
          (renderCached id (fun s => s ++ "!") ⟨[], 0, 0, 1⟩ "x" "v" "p" none).2
          "x" "v" "p" none
        = renderCached id (fun s => s ++ "!")
            (renderCached id (fun s => s ++ "!") ⟨[], 0, 0, 1⟩ "x" "v" "p" none).2
            "x" "v" "p" none := by
  have h := c1_render_cached_roundtrip id (fun s => s ++ "!") ⟨[], 0, 0, 1⟩ "x" "v" "p" none
    rfl (by decide)
  simpa using h

/-- C4: the count-returning full clear (`invalidate` with `note_path = None`,
the source's "clear entire cache" branch) empties the store and returns the
number of entries that were in the cache immediately before, in every prior
state. -/
theorem c4_invalidate_all_clears_and_counts (st : MarkdownCache) (vault_id : String) :
    (invalidate st vault_id none).1 = (getStats st).size
    ∧ (invalidate st vault_id none).2.store = []
    ∧ (getStats (invalidate st vault_id none).2).size = 0 := by
  exact ⟨rfl, rfl, rfl⟩

/-- C9: `clear` empties the store and resets both counters while keeping the
configured capacity, so the statistics immediately afterwards are all zero and
the hit rate is 0. -/
theorem c9_clear_resets_stats (st : MarkdownCache) :
    getStats (cacheClear st)
      = { hits := 0, misses := 0, size := 0, max_size := st.maxSize }
    ∧ (getStats (cacheClear st)).hit_rate = 0 := by
  constructor
  · rfl
  · simp [getStats, cacheClear, CacheStats.hit_rate]

/-- C10: `invalidate` with a specific note path is a no-op: it returns 0 and
leaves store, hit counter and miss counter untouched. -/
theorem c10_invalidate_note_noop (st : MarkdownCache) (vault_id note_path : String) :
    invalidate st vault_id (some note_path) = (0, st)
    ∧ (invalidate st vault_id (some note_path)).2.store = st.store
    ∧ (invalidate st vault_id (some note_path)).2.hits = st.hits
    ∧ (invalidate st vault_id (some note_path)).2.misses = st.misses := by
  exact ⟨rfl, rfl, rfl, rfl⟩

end ObsidianMd

namespace ObsidianMd

theorem lookupAssoc_eraseKey_none (k k2 : String) (l : List (String × String))
    (h : lookupAssoc k l = none) : lookupAssoc k (eraseKey k2 l) = none := by
  induction l with
  | nil => simpa [eraseKey] using h
  | cons e t ih =>
    obtain ⟨k', v⟩ := e
    by_cases hk : k' = k
    · simp [lookupAssoc, hk] at h
    · simp only [lookupAssoc, hk, if_false] at h
      by_cases hk2 : k' = k2
      · simpa [eraseKey, hk2] using h
      · simp [eraseKey, hk2, lookupAssoc, hk, ih h]

/-- C2: at capacity, inserting a fresh key evicts exactly the
least-recently-used entry (the tail of the recency order) and nothing else;
both `set` on an existing key and a successful `get` refresh an entry's
recency; consequently an entry read via `get` immediately before the overflow
insertion survives it (capacity at least 2). -/
theorem c2_lru_eviction (hash : String → String) (st : MarkdownCache)
    (vault_id note_path : String) (modified_at : Option PyDateTime) (html : String)
    (init : List (String × String)) (lru : String × String)
    (hstore : st.store = init ++ [lru])
    (hfull : st.store.length = st.maxSize)
    (hfresh : lookupAssoc (makeKey hash vault_id note_path modified_at) st.store = none) :
    (cacheSet hash st vault_id note_path modified_at html).store
      = (makeKey hash vault_id note_path modified_at, html) :: init
    ∧ (∀ e ∈ init, e ∈ (cacheSet hash st vault_id note_path modified_at html).store)
    ∧ (∀ (st2 : MarkdownCache) (v2 p2 : String) (m2 : Option PyDateTime) (h2 : String),
        (lookupAssoc (makeKey hash v2 p2 m2) st2.store).isSome = true →
        (cacheSet hash st2 v2 p2 m2 h2).store
          = (makeKey hash v2 p2 m2, h2) :: eraseKey (makeKey hash v2 p2 m2) st2.store)
    ∧ (∀ (st2 : MarkdownCache) (v2 p2 : String) (m2 : Option PyDateTime) (h2 : String),
        lookupAssoc (makeKey hash v2 p2 m2) st2.store = some h2 →
        (cacheGet hash st2 v2 p2 m2).2.store
          = (makeKey hash v2 p2 m2, h2) :: eraseKey (makeKey hash v2 p2 m2) st2.store)
    ∧ (∀ (vr pr : String) (mr : Option PyDateTime) (hr : String),
        2 ≤ st.maxSize →
        lookupAssoc (makeKey hash vr pr mr) st.store = some hr →
        (makeKey hash vr pr mr, hr)
          ∈ (cacheSet hash (cacheGet hash st vr pr mr).2
              vault_id note_path modified_at html).store) := by
  have hlen : init.length + 1 = st.maxSize := by
    rw [hstore] at hfull
    simpa using hfull
  have htake : st.store.take (st.maxSize - 1) = init := by
    rw [hstore]
    have : st.maxSize - 1 = init.length := by omega
    rw [this]
    exact List.take_left init [lru]
  have hsetFresh : (cacheSet hash st vault_id note_path modified_at html).store
      = (makeKey hash vault_id note_path modified_at, html) :: init := by
    simp only [cacheSet, hfresh, Option.isSome_none, Bool.false_eq_true, if_false]
    rw [htake]
  refine ⟨hsetFresh, ?_, ?_, ?_, ?_⟩
  · intro e he
    rw [hsetFresh]
    exact List.mem_cons_of_mem _ he
  · intro st2 v2 p2 m2 h2 hsome
    simp [cacheSet, hsome]
  · intro st2 v2 p2 m2 h2 hsome
    simp [cacheGet, hsome]
  · intro vr pr mr hr hcap2 hsome
    have hget : (cacheGet hash st vr pr mr).2
        = { st with
             hits := st.hits + 1
             store := (makeKey hash vr pr mr, hr)
               :: eraseKey (makeKey hash vr pr mr) st.store } := by
      simp [cacheGet, hsome]
    rw [hget]
    have hne : makeKey hash vault_id note_path modified_at ≠ makeKey hash vr pr mr := by
      intro h
      rw [h, hsome] at hfresh
      exact Option.noConfusion hfresh
    have hfresh2 : lookupAssoc (makeKey hash vault_id note_path modified_at)
        ((makeKey hash vr pr mr, hr) :: eraseKey (makeKey hash vr pr mr) st.store) = none := by
      simp only [lookupAssoc]
      rw [if_neg (fun h => hne h.symm)]
      exact lookupAssoc_eraseKey_none _ _ _ hfresh
    simp only [cacheSet, hfresh2, Option.isSome_none, Bool.false_eq_true, if_false]
    obtain ⟨k, hk⟩ : ∃ k, st.maxSize = k + 2 := ⟨st.maxSize - 2, by omega⟩
    simp only [hk]
    have : k + 2 - 1 = k + 1 := by omega
    rw [this, List.take_succ_cons]
    exact List.mem_cons_of_mem _ (List.mem_cons_self _ _)

/-- Witness for C2 at a concrete cache of capacity 2. -/
theorem c2_lru_eviction_witness :
    (cacheSet id ⟨[("a:x:none", "1"), ("b:y:none", "2")], 0, 0, 2⟩ "c" "z" none "3").store
      = (makeKey id "c" "z" none, "3") :: [("a:x:none", "1")]
    ∧ (makeKey id "a" "x" none, "1")
        ∈ (cacheSet id
            (cacheGet id ⟨[("a:x:none", "1"), ("b:y:none", "2")], 0, 0, 2⟩ "a" "x" none).2
            "c" "z" none "3").store := by
  have h := c2_lru_eviction id ⟨[("a:x:none", "1"), ("b:y:none", "2")], 0, 0, 2⟩
    "c" "z" none "3" [("a:x:none", "1")] ("b:y:none", "2") rfl rfl (by decide)
  exact ⟨h.1, h.2.2.2.2 "a" "x" none "1" (by decide) (by decide)⟩

end ObsidianMd

namespace ObsidianMd

/-! ## Theorems: cache key derivation (C6) -/

theorem padDigits_length (w n : Nat) : (padDigits w n).length = w := by
  induction w generalizing n with
  | zero => rfl
  | succ w ih => simp [padDigits, ih]

theorem digitChar_toNat (k : Nat) (h : k < 10) : (digitChar k).toNat = 48 + k := by
  interval_cases k <;> decide

theorem unpadAux_append (a : Nat) (l : List Char) (c : Char) :
    unpadAux a (l ++ [c]) = 10 * unpadAux a l + (c.toNat - 48) := by
  induction l generalizing a with
  | nil => rfl
  | cons d t ih =>
    rw [List.cons_append]
    rw [show unpadAux a (d :: (t ++ [c])) = unpadAux (10 * a + (d.toNat - 48)) (t ++ [c])
      from rfl]
    rw [show unpadAux a (d :: t) = unpadAux (10 * a + (d.toNat - 48)) t from rfl]
    exact ih _

theorem unpad_padDigits (w n : Nat) : unpadAux 0 (padDigits w n) = n % 10 ^ w := by
  induction w generalizing n with
  | zero =>
    rw [show padDigits 0 n = [] from rfl]
    rw [show unpadAux 0 [] = 0 from rfl]
    rw [pow_zero, Nat.mod_one]
  | succ w ih =>
    rw [show padDigits (w + 1) n = padDigits w (n / 10) ++ [digitChar (n % 10)] from rfl]
    rw [unpadAux_append, ih]
    have hd : (digitChar (n % 10)).toNat - 48 = n % 10 := by
      rw [digitChar_toNat _ (Nat.mod_lt _ (by norm_num))]
      omega
    rw [hd]
    have hp : (10 : Nat) ^ (w + 1) = 10 * 10 ^ w := by ring
    rw [hp, Nat.mod_mul]
    generalize n / 10 % 10 ^ w = q
    omega

theorem padDigits_inj {w n m : Nat} (hn : n < 10 ^ w) (hm : m < 10 ^ w)
    (h : padDigits w n = padDigits w m) : n = m := by
  have h2 := congrArg (unpadAux 0) h
  rwa [unpad_padDigits, unpad_padDigits, Nat.mod_eq_of_lt hn, Nat.mod_eq_of_lt hm] at h2

theorem append_inj_pad {w a b : Nat} {r s : List Char}
    (h : padDigits w a ++ r = padDigits w b ++ s) :
    padDigits w a = padDigits w b ∧ r = s :=
  List.append_inj h (by rw [padDigits_length, padDigits_length])

theorem isoformatData_inj {d1 d2 : PyDateTime} (h1 : d1.valid) (h2 : d2.valid)
    (h : isoformatData d1 = isoformatData d2) : d1 = d2 := by
  obtain ⟨hy1, hy1', hmo1, hmo1', hd1, hd1', hh1, hmi1, hs1, hu1⟩ := h1
  obtain ⟨hy2, hy2', hmo2, hmo2', hd2, hd2', hh2, hmi2, hs2, hu2⟩ := h2
  unfold isoformatData at h
  obtain ⟨hy, h⟩ := append_inj_pad h
  injection h with _ h
  obtain ⟨hmo, h⟩ := append_inj_pad h
  injection h with _ h
  obtain ⟨hd, h⟩ := append_inj_pad h
  injection h with _ h
  obtain ⟨hh, h⟩ := append_inj_pad h
  injection h with _ h
  obtain ⟨hmi, h⟩ := append_inj_pad h
  injection h with _ h
  obtain ⟨hs, h⟩ := append_inj_pad h
  have hy' : d1.year = d2.year := padDigits_inj (by norm_num; omega) (by norm_num; omega) hy
  have hmo' : d1.month = d2.month := padDigits_inj (by norm_num; omega) (by norm_num; omega) hmo
  have hd' : d1.day = d2.day := padDigits_inj (by norm_num; omega) (by norm_num; omega) hd
  have hh' : d1.hour = d2.hour := padDigits_inj (by norm_num; omega) (by norm_num; omega) hh
  have hmi' : d1.minute = d2.minute :=
    padDigits_inj (by norm_num; omega) (by norm_num; omega) hmi
  have hs' : d1.second = d2.second :=
    padDigits_inj (by norm_num; omega) (by norm_num; omega) hs
  have hu' : d1.microsecond = d2.microsecond := by
    by_cases c1 : d1.microsecond = 0 <;> by_cases c2 : d2.microsecond = 0
    · rw [c1, c2]
    · rw [microPart, microPart, if_pos c1, if_neg c2] at h
      exact absurd h (by simp)
    · rw [microPart, microPart, if_neg c1, if_pos c2] at h
      exact absurd h (by simp)
    · rw [microPart, microPart, if_neg c1, if_neg c2] at h
      injection h with _ h
      exact padDigits_inj (by norm_num; omega) (by norm_num; omega) h
  cases d1
  cases d2
  simp_all

theorem isoformatData_length (dt : PyDateTime) :
    (isoformatData dt).length = if dt.microsecond = 0 then 19 else 26 := by
  unfold isoformatData microPart
  by_cases h : dt.microsecond = 0 <;> simp [h, padDigits_length]

theorem mtimeStr_inj {m1 m2 : Option PyDateTime} (h1 : optValid m1) (h2 : optValid m2)
    (hne : m1 ≠ m2) : mtimeStr m1 ≠ mtimeStr m2 := by
  cases m1 with
  | none =>
    cases m2 with
    | none => exact absurd rfl hne
    | some dt =>
      intro h
      have hlen := congrArg (fun s : String => s.data.length) h
      have h4 : ("none" : String).data.length = 4 := rfl
      simp only [mtimeStr, isoformat, h4] at hlen
      rw [isoformatData_length] at hlen
      split_ifs at hlen <;> omega
  | some dt =>
    cases m2 with
    | none =>
      intro h
      have hlen := congrArg (fun s : String => s.data.length) h
      have h4 : ("none" : String).data.length = 4 := rfl
      simp only [mtimeStr, isoformat, h4] at hlen
      rw [isoformatData_length] at hlen
      split_ifs at hlen <;> omega
    | some dt2 =>
      intro h
      apply hne
      have hdata : isoformatData dt = isoformatData dt2 := by
        have := congrArg String.data h
        simpa [mtimeStr, isoformat] using this
      exact congrArg some (isoformatData_inj h1 h2 hdata)

theorem keyData_mtime_inj (vault_id note_path : String) {m1 m2 : Option PyDateTime}
    (h : mtimeStr m1 ≠ mtimeStr m2) :
    keyData vault_id note_path m1 ≠ keyData vault_id note_path m2 := by
  intro he
  apply h
  have he' : (vault_id ++ ":" ++ note_path ++ ":") ++ mtimeStr m1
      = (vault_id ++ ":" ++ note_path ++ ":") ++ mtimeStr m2 := by
    simpa [keyData, String.append_assoc] using he
  have hd := congrArg String.data he'
  rw [String.data_append, String.data_append] at hd
  exact String.ext (List.append_cancel_left hd)

theorem keyData_vault_inj {v1 v2 : String} (note_path : String) (m : Option PyDateTime)
    (h : v1 ≠ v2) : keyData v1 note_path m ≠ keyData v2 note_path m := by
  intro he
  apply h
  have he' : v1 ++ (":" ++ note_path ++ ":" ++ mtimeStr m)
      = v2 ++ (":" ++ note_path ++ ":" ++ mtimeStr m) := by
    simpa [keyData, String.append_assoc] using he
  have hd := congrArg String.data he'
  rw [String.data_append, String.data_append] at hd
  exact String.ext (List.append_cancel_right hd)

/-- C6: cache keys separate identities: with an injective digest, changing the
modification timestamp (including to or from `None`) changes the derived key,
so the next `render_cached` lookup after such a change is a miss; and distinct
vault ids with equal note path and timestamp never share a key. -/
theorem c6_cache_key_separation (hash : String → String) (hinj : Function.Injective hash) :
    (∀ (vault_id note_path : String) (m1 m2 : Option PyDateTime),
        optValid m1 → optValid m2 → m1 ≠ m2 →
        makeKey hash vault_id note_path m1 ≠ makeKey hash vault_id note_path m2)
    ∧ (∀ (v1 v2 note_path : String) (m : Option PyDateTime),
        v1 ≠ v2 → makeKey hash v1 note_path m ≠ makeKey hash v2 note_path m)
    ∧ (∀ (render : String → String) (st : MarkdownCache)
        (content vault_id note_path : String) (m1 m2 : Option PyDateTime),
        optValid m1 → optValid m2 → m1 ≠ m2 → st.store = [] →
        (cacheGet hash (renderCached hash render st content vault_id note_path m1).2
            vault_id note_path m2).1 = none
        ∧ (cacheGet hash (renderCached hash render st content vault_id note_path m1).2
             vault_id note_path m2).2.misses
          = (renderCached hash render st content vault_id note_path m1).2.misses + 1) := by
  have hpart1 : ∀ (vault_id note_path : String) (m1 m2 : Option PyDateTime),
      optValid m1 → optValid m2 → m1 ≠ m2 →
      makeKey hash vault_id note_path m1 ≠ makeKey hash vault_id note_path m2 := by
    intro v p m1 m2 hv1 hv2 hne he
    exact keyData_mtime_inj v p (mtimeStr_inj hv1 hv2 hne) (hinj he)
  refine ⟨hpart1, ?_, ?_⟩
  · intro v1 v2 p m hne he
    exact keyData_vault_inj p m hne (hinj he)
  · intro render st content v p m1 m2 hv1 hv2 hne hempty
    have hkey := hpart1 v p m1 m2 hv1 hv2 hne
    have h1 : renderCached hash render st content v p m1
        = (render content,
           { st with
              misses := st.misses + 1
              store := [(makeKey hash v p m1, render content)] }) := by
      simp [renderCached, cacheGet, cacheSet, hempty, lookupAssoc]
    rw [h1]
    have hlook : lookupAssoc (makeKey hash v p m2)
        [(makeKey hash v p m1, render content)] = none := by
      simp only [lookupAssoc]
      rw [if_neg hkey]
    simp [cacheGet, hlook]

/-- Witness for C6 at concrete inputs (identity digest, a 2024 timestamp
versus an absent one, vault ids `"a"` versus `"b"`). -/
theorem c6_cache_key_separation_witness :
    makeKey id "v" "p" (some ⟨2024, 1, 1, 0, 0, 0, 0⟩) ≠ makeKey id "v" "p" none
    ∧ makeKey id "a" "p" none ≠ makeKey id "b" "p" none := by
  have h := c6_cache_key_separation id (fun _ _ hab => hab)
  exact ⟨h.1 "v" "p" (some ⟨2024, 1, 1, 0, 0, 0, 0⟩) none (by decide) trivial (by decide),
    h.2.1 "a" "b" "p" none (by decide)⟩

end ObsidianMd

namespace ObsidianMd

/-! ## Theorems: the callout preprocessor (C3) -/

theorem dropWhile_head_not (p : Char → Bool) (l : List Char) {c : Char} {t : List Char}
    (h : l.dropWhile p = c :: t) : p c = false := by
  induction l with
  | nil => simp at h
  | cons a r ih =>
    rw [List.dropWhile_cons] at h
    by_cases hp : p a
    · rw [if_pos hp] at h
      exact ih h
    · rw [if_neg hp] at h
      injection h with h1 _
      rw [← h1]
      exact Bool.eq_false_iff.mpr hp

theorem trimRightData_head (l : List Char) {c : Char} {t : List Char}
    (h : trimRightData l = c :: t) : ∃ t', l = c :: t' := by
  cases l with
  | nil =>
    rw [show trimRightData [] = [] from rfl] at h
    cases h
  | cons a r =>
    rw [show trimRightData (a :: r)
        = (if (trimRightData r).isEmpty then (if pySpace a then [] else [a])
           else a :: trimRightData r) from rfl] at h
    by_cases he : (trimRightData r).isEmpty
    · rw [if_pos he] at h
      by_cases hs : pySpace a
      · rw [if_pos hs] at h
        cases h
      · rw [if_neg hs] at h
        injection h with h1 _
        exact ⟨r, by rw [h1]⟩
    · rw [if_neg he] at h
      injection h with h1 _
      exact ⟨r, by rw [h1]⟩

theorem pyStrip_no_leading_space (s : String) : pyStartsWith (pyStrip s) " " = false := by
  show isPrefixData " ".data (pyStripData s.data) = false
  cases hh : pyStripData s.data with
  | nil => rfl
  | cons c t =>
    have hc : pySpace c = false := by
      obtain ⟨t', ht⟩ := trimRightData_head _ hh
      exact dropWhile_head_not pySpace _ ht
    have hne : ¬ (' ' = c) := by
      intro he
      rw [← he] at hc
      exact absurd hc (by decide)
    show (decide (' ' = c) && isPrefixData [] t) = false
    simp [hne]

theorem consumeTransform_eq_strip (l : String) :
    consumeTransform l = pyStrip (strDrop l 1) := by
  show (if pyStartsWith (pyStrip (strDrop l 1)) " " then strDrop (pyStrip (strDrop l 1)) 1
        else pyStrip (strDrop l 1)) = pyStrip (strDrop l 1)
  rw [pyStrip_no_leading_space]
  simp

theorem takeWhile_append_all {α : Type} (p : α → Bool) (a b : List α)
    (h : ∀ x ∈ a, p x = true) : (a ++ b).takeWhile p = a ++ b.takeWhile p := by
  induction a with
  | nil => simp
  | cons x t ih =>
    rw [List.cons_append, List.takeWhile_cons, if_pos (h x (List.mem_cons_self x t)),
      ih fun y hy => h y (List.mem_cons_of_mem _ hy), List.cons_append]

theorem dropWhile_append_all {α : Type} (p : α → Bool) (a b : List α)
    (h : ∀ x ∈ a, p x = true) : (a ++ b).dropWhile p = b.dropWhile p := by
  induction a with
  | nil => simp
  | cons x t ih =>
    rw [List.cons_append, List.dropWhile_cons, if_pos (h x (List.mem_cons_self x t))]
    exact ih fun y hy => h y (List.mem_cons_of_mem _ hy)

theorem takeWhile_head_none {α : Type} (p : α → Bool) (b : List α)
    (h : ∀ x, b.head? = some x → p x = false) : b.takeWhile p = [] := by
  cases b with
  | nil => rfl
  | cons x t =>
    rw [List.takeWhile_cons, if_neg]
    rw [h x rfl]
    simp

theorem dropWhile_head_none {α : Type} (p : α → Bool) (b : List α)
    (h : ∀ x, b.head? = some x → p x = false) : b.dropWhile p = b := by
  cases b with
  | nil => rfl
  | cons x t =>
    rw [List.dropWhile_cons, if_neg]
    rw [h x rfl]
    simp

/-- One step of `CalloutPreprocessor.run` on a matched header followed by a
run of block-quote continuation lines. -/
theorem calloutRun_step (hdr : String) (body rest : List String)
    (g1 : String) (g2 : Option Char) (g3 : String)
    (hhdr : matchCalloutHeader hdr = some (g1, g2, g3))
    (hbody : ∀ l ∈ body, pyStartsWith l ">" = true)
    (hrest : ∀ l, rest.head? = some l → pyStartsWith l ">" = false) :
    calloutRun (hdr :: (body ++ rest))
      = calloutHtmlLines (pyLower g1) g3 (body.map consumeTransform) ++ calloutRun rest := by
  rw [calloutRun, hhdr]
  rw [takeWhile_append_all _ _ _ hbody, takeWhile_head_none _ _ hrest, List.append_nil]
  rw [dropWhile_append_all _ _ _ hbody, dropWhile_head_none _ _ hrest]

/-- C3 (amended): on a callout header followed by block-quote continuation
lines, the preprocessor consumes each continuation line up to the first
non-quote line, and transforms each consumed line by removing the leading `>`
and then stripping **all** leading and trailing whitespace from the remainder
(extra indentation and trailing whitespace are not preserved; the source's
one-space check is dead code after `strip`). -/
theorem c3_callout_continuation_amended (hdr : String) (body rest : List String)
    (g1 : String) (g2 : Option Char) (g3 : String)
    (hhdr : matchCalloutHeader hdr = some (g1, g2, g3))
    (hbody : ∀ l ∈ body, pyStartsWith l ">" = true)
    (hrest : ∀ l, rest.head? = some l → pyStartsWith l ">" = false) :
    calloutRun (hdr :: (body ++ rest))
      = calloutHtmlLines (pyLower g1) g3 (body.map fun l => pyStrip (strDrop l 1))
          ++ calloutRun rest := by
  rw [calloutRun_step hdr body rest g1 g2 g3 hhdr hbody hrest]
  rw [show consumeTransform = fun l => pyStrip (strDrop l 1) from funext consumeTransform_eq_strip]

/-- Witness for the amended C3 at a concrete callout. -/
theorem c3_callout_continuation_amended_witness :
    calloutRun ["> [!tip] T2", "> hello", "world"]
      = calloutHtmlLines (pyLower "tip") "T2"
          (["> hello"].map fun l => pyStrip (strDrop l 1))
          ++ calloutRun ["world"] := by
  have h := c3_callout_continuation_amended "> [!tip] T2" ["> hello"] ["world"]
    "tip" none "T2" (by decide) (by decide)
    (fun l hl => by
      have : l = "world" := by simpa using hl.symm
      rw [this]
      decide)
  simpa using h

/-- C3 counterexample: for the callout `"> [!note] T"` with continuation line
`">   indented"`, the source produces the body line `"indented"` (all
whitespace stripped), while the claim's transformation (`>` plus at most one
space removed, rest untouched) predicts `"  indented"`; the two outputs
differ. -/
theorem c3_callout_continuation_counterexample :
    consumeTransform ">   indented" ≠ specContinuationStrip ">   indented"
    ∧ calloutRun ["> [!note] T", ">   indented"]
        = calloutHtmlLines "note" "T" ["indented"]
    ∧ calloutRun ["> [!note] T", ">   indented"]
        ≠ calloutHtmlLines "note" "T" [specContinuationStrip ">   indented"] := by
  have hstep := calloutRun_step "> [!note] T" [">   indented"] [] "note" none "T"
    (by decide) (by decide) (fun l hl => by simp at hl)
  have hnil : calloutRun [] = [] := by rw [calloutRun]
  rw [hnil, List.append_nil] at hstep
  refine ⟨by decide, ?_, ?_⟩
  · rw [hstep]
    decide
  · rw [hstep]
    decide

end ObsidianMd

namespace ObsidianMd

/-! ## Theorems: the embed preprocessor (C8) -/

theorem embedClose_spec (t : List Char) (h a : Option (List Char)) (rest : List Char) :
    embedClose t h a (']' :: ']' :: rest)
      = some ((String.mk t, h.map String.mk, a.map String.mk), rest) := rfl

theorem isEmpty_false_of_ne_nil {α : Type} {l : List α} (h : l ≠ []) :
    l.isEmpty = false := by
  cases l with
  | nil => exact absurd rfl h
  | cons a t => rfl

theorem embedAliasPart_spec (t : List Char) (h : Option (List Char))
    (a : Option (List Char)) (rest : List Char)
    (ha : ∀ as, a = some as → as ≠ [] ∧ ∀ c ∈ as, (!(c = ']')) = true) :
    embedAliasPart t h (embedAliasText a ++ (']' :: ']' :: rest))
      = some ((String.mk t, h.map String.mk, a.map String.mk), rest) := by
  cases a with
  | none => rfl
  | some as =>
    obtain ⟨hne, hac⟩ := ha as rfl
    have h1 : (as ++ (']' :: ']' :: rest)).takeWhile (fun c => !(c = ']')) = as := by
      rw [takeWhile_append_all _ _ _ hac,
        show (']' :: ']' :: rest).takeWhile (fun c => !(c = ']')) = [] from rfl,
        List.append_nil]
    show embedAliasPart t h ('|' :: (as ++ (']' :: ']' :: rest))) = _
    simp only [embedAliasPart]
    rw [h1, isEmpty_false_of_ne_nil hne]
    simp only [Bool.false_eq_true, if_false]
    rw [List.drop_left]
    exact embedClose_spec t h (some as) rest

theorem matchEmbedAfterBrackets_spec (t : List Char) (h a : Option (List Char))
    (rest : List Char)
    (ht : t ≠ []) (htc : ∀ c ∈ t, embedTargetChar c = true)
    (hh : ∀ hs, h = some hs → hs ≠ [] ∧ ∀ c ∈ hs, embedHeadingChar c = true)
    (ha : ∀ as, a = some as → as ≠ [] ∧ ∀ c ∈ as, (!(c = ']')) = true) :
    matchEmbedAfterBrackets
        (t ++ (embedHeadingText h ++ (embedAliasText a ++ (']' :: ']' :: rest))))
      = some ((String.mk t, h.map String.mk, a.map String.mk), rest) := by
  have hRnil : (embedHeadingText h ++ (embedAliasText a ++ (']' :: ']' :: rest))).takeWhile
      embedTargetChar = [] := by
    cases h with
    | some hs => rfl
    | none =>
      cases a with
      | some as => rfl
      | none => rfl
  have htake : (t ++ (embedHeadingText h ++ (embedAliasText a ++ (']' :: ']' :: rest)))).takeWhile
      embedTargetChar = t := by
    rw [takeWhile_append_all _ _ _ htc, hRnil, List.append_nil]
  simp only [matchEmbedAfterBrackets]
  rw [htake, isEmpty_false_of_ne_nil ht]
  simp only [Bool.false_eq_true, if_false]
  rw [List.drop_left]
  cases h with
  | none =>
    cases a with
    | none => exact embedAliasPart_spec t none none rest ha
    | some as =>
      show embedAliasPart t none (embedAliasText (some as) ++ (']' :: ']' :: rest)) = _
      exact embedAliasPart_spec t none (some as) rest ha
  | some hs =>
    obtain ⟨hhs, hhc⟩ := hh hs rfl
    show (let h' := (hs ++ (embedAliasText a ++ (']' :: ']' :: rest))).takeWhile
            embedHeadingChar
          if h'.isEmpty then none
          else embedAliasPart t (some h')
            ((hs ++ (embedAliasText a ++ (']' :: ']' :: rest))).drop h'.length)) = _
    have hXnil : (embedAliasText a ++ (']' :: ']' :: rest)).takeWhile embedHeadingChar = [] := by
      cases a with
      | some as => rfl
      | none => rfl
    have h1 : (hs ++ (embedAliasText a ++ (']' :: ']' :: rest))).takeWhile embedHeadingChar
        = hs := by
      rw [takeWhile_append_all _ _ _ hhc, hXnil, List.append_nil]
    simp only [h1]
    rw [isEmpty_false_of_ne_nil hhs]
    simp only [Bool.false_eq_true, if_false]
    rw [List.drop_left]
    exact embedAliasPart_spec t (some hs) a rest ha

/-- One consumed embed at the head of the scan: the whole `![[...]]` text,
including its `[[...]]` suffix, is replaced at once and scanning resumes
after it. -/
theorem embedSubData_consume (t : List Char) (h a : Option (List Char)) (rest : List Char)
    (ht : t ≠ []) (htc : ∀ c ∈ t, embedTargetChar c = true)
    (hh : ∀ hs, h = some hs → hs ≠ [] ∧ ∀ c ∈ hs, embedHeadingChar c = true)
    (ha : ∀ as, a = some as → as ≠ [] ∧ ∀ c ∈ as, (!(c = ']')) = true) :
    embedSubData ('!' :: '[' :: '[' ::
        (t ++ (embedHeadingText h ++ (embedAliasText a ++ (']' :: ']' :: rest)))))
      = (replaceEmbed (String.mk t) (h.map String.mk) (a.map String.mk)).data
          ++ embedSubData rest := by
  rw [embedSubData, if_pos rfl]
  split
  · rename_i g rem heq
    rw [show matchEmbedTail ('[' :: '[' ::
          (t ++ (embedHeadingText h ++ (embedAliasText a ++ (']' :: ']' :: rest)))))
        = matchEmbedAfterBrackets
            (t ++ (embedHeadingText h ++ (embedAliasText a ++ (']' :: ']' :: rest))))
        from rfl,
      matchEmbedAfterBrackets_spec t h a rest ht htc hh ha] at heq
    injection heq with heq
    have hg := congrArg Prod.fst heq
    have hrem := congrArg Prod.snd heq
    simp only at hg hrem
    rw [← hg, ← hrem]
  · rename_i heq
    rw [show matchEmbedTail ('[' :: '[' ::
          (t ++ (embedHeadingText h ++ (embedAliasText a ++ (']' :: ']' :: rest)))))
        = matchEmbedAfterBrackets
            (t ++ (embedHeadingText h ++ (embedAliasText a ++ (']' :: ']' :: rest))))
        from rfl,
      matchEmbedAfterBrackets_spec t h a rest ht htc hh ha] at heq
    cases heq

theorem ltFollowOk_tail {c : Char} {rest : List Char}
    (h : ltFollowOk (c :: rest) = true) : ltFollowOk rest = true := by
  simp only [ltFollowOk, Bool.and_eq_true] at h
  exact h.2

theorem ltFollowOk_append {a b : List Char} (ha : ltFollowOk a = true)
    (hb : ltFollowOk b = true) : ltFollowOk (a ++ b) = true := by
  induction a with
  | nil => exact hb
  | cons c t ih =>
    rw [List.cons_append]
    simp only [ltFollowOk, Bool.and_eq_true] at ha ⊢
    obtain ⟨hc, ht⟩ := ha
    refine ⟨?_, ih ht⟩
    by_cases hlt : c = '<'
    · rw [if_pos hlt] at hc ⊢
      cases t with
      | nil => cases hc
      | cons c' t' => rw [List.cons_append]; exact hc
    · rw [if_neg hlt]

theorem ltFollowOk_of_no_lt {l : List Char} (h : ∀ c ∈ l, c ≠ '<') :
    ltFollowOk l = true := by
  induction l with
  | nil => rfl
  | cons c t ih =>
    simp only [ltFollowOk, Bool.and_eq_true]
    refine ⟨?_, ih fun x hx => h x (List.mem_cons_of_mem _ hx)⟩
    rw [if_neg (h c (List.mem_cons_self _ _))]

theorem htmlEscapeChar_no_angle (d c : Char) (h : c ∈ htmlEscapeChar d) :
    c ≠ '<' ∧ c ≠ '>' := by
  unfold htmlEscapeChar at h
  split_ifs at h with h1 h2 h3 h4 h5
  · rw [show ("&amp;" : String).data = ['&', 'a', 'm', 'p', ';'] from rfl] at h
    simp only [List.mem_cons, List.not_mem_nil, or_false] at h
    rcases h with h | h | h | h | h <;> subst h <;> exact ⟨by decide, by decide⟩
  · rw [show ("&lt;" : String).data = ['&', 'l', 't', ';'] from rfl] at h
    simp only [List.mem_cons, List.not_mem_nil, or_false] at h
    rcases h with h | h | h | h <;> subst h <;> exact ⟨by decide, by decide⟩
  · rw [show ("&gt;" : String).data = ['&', 'g', 't', ';'] from rfl] at h
    simp only [List.mem_cons, List.not_mem_nil, or_false] at h
    rcases h with h | h | h | h <;> subst h <;> exact ⟨by decide, by decide⟩
  · rw [show ("&quot;" : String).data = ['&', 'q', 'u', 'o', 't', ';'] from rfl] at h
    simp only [List.mem_cons, List.not_mem_nil, or_false] at h
    rcases h with h | h | h | h | h | h <;> subst h <;> exact ⟨by decide, by decide⟩
  · rw [show ("&#x27;" : String).data = ['&', '#', 'x', '2', '7', ';'] from rfl] at h
    simp only [List.mem_cons, List.not_mem_nil, or_false] at h
    rcases h with h | h | h | h | h | h <;> subst h <;> exact ⟨by decide, by decide⟩
  · simp only [List.mem_cons, List.not_mem_nil, or_false] at h
    subst h
    exact ⟨h2, h3⟩

theorem htmlEscape_no_angle (s : String) :
    ∀ c ∈ (htmlEscape s).data, c ≠ '<' ∧ c ≠ '>' := by
  intro c hc
  rw [show (htmlEscape s).data = s.data.flatMap htmlEscapeChar from rfl,
    List.mem_flatMap] at hc
  obtain ⟨d, _, hd⟩ := hc
  exact htmlEscapeChar_no_angle d c hd

theorem ltFollowOk_htmlEscape (s : String) : ltFollowOk (htmlEscape s).data = true :=
  ltFollowOk_of_no_lt fun c hc => (htmlEscape_no_angle s c hc).1

theorem not_img_of_ltFollowOk {l : List Char} (h : ltFollowOk l = true) :
    ∀ x y, l ≠ x ++ ('<' :: 'i' :: 'm' :: 'g' :: []) ++ y := by
  intro x y heq
  rw [heq] at h
  clear heq
  induction x with
  | nil =>
    simp only [List.nil_append, List.cons_append, ltFollowOk] at h
    simp at h
  | cons c t ih =>
    simp only [List.cons_append] at h ih
    exact ih (ltFollowOk_tail h)

theorem sub_here (pat r : List Char) : ∃ x y, pat ++ r = x ++ pat ++ y :=
  ⟨[], r, by simp⟩

theorem sub_there (pat l r : List Char) (hr : ∃ x y, r = x ++ pat ++ y) :
    ∃ x y, l ++ r = x ++ pat ++ y := by
  obtain ⟨x, y, hxy⟩ := hr
  exact ⟨l ++ x, y, by rw [hxy]; simp [List.append_assoc]⟩

end ObsidianMd

namespace ObsidianMd

set_option maxRecDepth 8000 in
theorem replaceEmbed_note_data (g1 : String) (g2 g3 : Option String)
    (himg : isImage (pyStrip g1) = false) :
    (replaceEmbed g1 g2 g3).data
      = "<div class=\"embedded-note".data
        ++ ((" border-l-4 border-accent-400 pl-4 my-4 bg-obsidian-100 dark:bg-obsidian-800 rounded-r-lg p-4\" data-embed-target=\"" : String).data
        ++ ((htmlEscape (pyStrip g1)).data
        ++ (("\"" : String).data
        ++ ((match truthyOpt (g2.map pyStrip) with
             | some hd => " data-embed-heading=\"" ++ htmlEscape hd ++ "\""
             | none => "").data
        ++ ((">\n" : String).data
        ++ (("<a href=\"/note/" : String).data
        ++ ((htmlEscape (pyStrip g1)).data
        ++ (("\" class=\"internal-link font-medium\">📄 " : String).data
        ++ ((htmlEscape ((truthyOpt (g3.map pyStrip)).getD (pyStrip g1))).data
        ++ ((match truthyOpt (g2.map pyStrip) with
             | some hd => " > " ++ htmlEscape hd
             | none => "").data
        ++ ("</a>\n</div>" : String).data)))))))))) := by
  cases hg2 : truthyOpt (g2.map pyStrip) <;> cases hg3 : truthyOpt (g3.map pyStrip) <;>
    simp [replaceEmbed, himg, hg2, hg3, String.data_append, List.append_assoc,
      List.cons_append, List.nil_append]

end ObsidianMd

namespace ObsidianMd

/-- C8: an embed `![[target(#heading)?(|alias)?]]` is consumed whole by the
preprocessor's substitution pass (including its `[[...]]` suffix, which is
therefore never seen by the later wiki-link inline rule); a target with an
image extension (case-insensitive) is replaced by an `<img>` at the
attachment endpoint whose alt text is the alias when truthy (an alias that
strips to the empty string counts as absent, as the source's
`alias or target`) else the target; any other target yields the bordered
placeholder `<div>` with a `/note/` link and no `<img>` tag anywhere in
it. -/
theorem c8_embed_processing :
    (∀ (t : List Char) (h a : Option (List Char)) (rest : List Char),
        t ≠ [] → (∀ c ∈ t, embedTargetChar c = true) →
        (∀ hs, h = some hs → hs ≠ [] ∧ ∀ c ∈ hs, embedHeadingChar c = true) →
        (∀ as, a = some as → as ≠ [] ∧ ∀ c ∈ as, (!(c = ']')) = true) →
        embedSubData ('!' :: '[' :: '[' ::
            (t ++ (embedHeadingText h ++ (embedAliasText a ++ (']' :: ']' :: rest)))))
          = (replaceEmbed (String.mk t) (h.map String.mk) (a.map String.mk)).data
              ++ embedSubData rest)
    ∧ (∀ (g1 : String) (g2 g3 : Option String), isImage (pyStrip g1) = true →
        replaceEmbed g1 g2 g3
          = "<img src=\"/api/vault/attachment/" ++ htmlEscape (pyStrip g1) ++ "\" alt=\""
            ++ htmlEscape ((truthyOpt (g3.map pyStrip)).getD (pyStrip g1))
            ++ "\" class=\"embedded-image max-w-full h-auto rounded-lg\" loading=\"lazy\">")
    ∧ (∀ (g1 : String) (g2 g3 : Option String), isImage (pyStrip g1) = false →
        (∃ x y, (replaceEmbed g1 g2 g3).data
            = x ++ "<div class=\"embedded-note".data ++ y)
        ∧ (∃ x y, (replaceEmbed g1 g2 g3).data = x ++ "<a href=\"/note/".data ++ y)
        ∧ ∀ x y, (replaceEmbed g1 g2 g3).data ≠ x ++ "<img".data ++ y) := by
  refine ⟨embedSubData_consume, ?_, ?_⟩
  · intro g1 g2 g3 himg
    simp only [replaceEmbed, himg, if_true]
  · intro g1 g2 g3 himg
    refine ⟨?_, ?_, ?_⟩
    · rw [replaceEmbed_note_data g1 g2 g3 himg]
      exact sub_here _ _
    · rw [replaceEmbed_note_data g1 g2 g3 himg]
      apply sub_there
      apply sub_there
      apply sub_there
      apply sub_there
      apply sub_there
      apply sub_there
      exact sub_here _ _
    · intro x y
      rw [replaceEmbed_note_data g1 g2 g3 himg]
      refine not_img_of_ltFollowOk ?_ x y
      apply ltFollowOk_append (by decide)
      apply ltFollowOk_append (by decide)
      apply ltFollowOk_append (ltFollowOk_htmlEscape _)
      apply ltFollowOk_append (by decide)
      refine ltFollowOk_append ?_ ?_
      · cases hg2 : truthyOpt (g2.map pyStrip) with
        | none => rfl
        | some hd =>
          show ltFollowOk ((" data-embed-heading=\"" ++ htmlEscape hd ++ "\"").data) = true
          rw [show ((" data-embed-heading=\"" ++ htmlEscape hd ++ "\"").data)
              = (" data-embed-heading=\"".data ++ (htmlEscape hd).data) ++ "\"".data
              from by simp [String.data_append]]
          exact ltFollowOk_append
            (ltFollowOk_append (by decide) (ltFollowOk_htmlEscape _)) (by decide)
      · apply ltFollowOk_append (by decide)
        apply ltFollowOk_append (by decide)
        apply ltFollowOk_append (ltFollowOk_htmlEscape _)
        apply ltFollowOk_append (by decide)
        apply ltFollowOk_append (ltFollowOk_htmlEscape _)
        refine ltFollowOk_append ?_ (by decide)
        cases hg2 : truthyOpt (g2.map pyStrip) with
        | none => rfl
        | some hd =>
          show ltFollowOk ((" > " ++ htmlEscape hd).data) = true
          rw [show ((" > " ++ htmlEscape hd).data)
              = " > ".data ++ (htmlEscape hd).data from by simp [String.data_append]]
          exact ltFollowOk_append (by decide) (ltFollowOk_htmlEscape _)

/-- Witness for C8: the embed `![[note]]` followed by text is consumed whole,
`![[pic.png|Alt]]`-style groups produce the attachment `<img>`, and a
whitespace-only alias falls back to the target in the alt text. -/
theorem c8_embed_processing_witness :
    embedSubData ('!' :: '[' :: '[' ::
        ("note".data ++ (embedHeadingText none
          ++ (embedAliasText none ++ (']' :: ']' :: " tail".data)))))
      = (replaceEmbed (String.mk "note".data) none none).data ++ embedSubData " tail".data
    ∧ replaceEmbed "pic.png" none (some "Alt")
        = "<img src=\"/api/vault/attachment/" ++ htmlEscape (pyStrip "pic.png") ++ "\" alt=\""
          ++ htmlEscape ((truthyOpt ((some "Alt").map pyStrip)).getD (pyStrip "pic.png"))
          ++ "\" class=\"embedded-image max-w-full h-auto rounded-lg\" loading=\"lazy\">"
    ∧ replaceEmbed "pic.png" none (some " ")
        = "<img src=\"/api/vault/attachment/" ++ htmlEscape (pyStrip "pic.png") ++ "\" alt=\""
          ++ htmlEscape ((truthyOpt ((some " ").map pyStrip)).getD (pyStrip "pic.png"))
          ++ "\" class=\"embedded-image max-w-full h-auto rounded-lg\" loading=\"lazy\">" := by
  refine ⟨c8_embed_processing.1 "note".data none none " tail".data (by decide) (by decide)
    (by intro hs hh; simp at hh) (by intro as ha; simp at ha),
    c8_embed_processing.2.1 "pic.png" none (some "Alt") (by decide),
    c8_embed_processing.2.1 "pic.png" none (some " ") (by decide)⟩

end ObsidianMd

namespace ObsidianMd

/-! ## Theorems: the wiki-link inline processor (C7) -/

/-- C7: every wiki-link match yields an `<a>` element linking to the note
endpoint `/note/{target}`; when the stripped heading is truthy the href
carries a fragment equal to that heading lower-cased with every space
replaced by a hyphen, while an absent or whitespace-only heading adds no
fragment (the source's `if heading:`); the display text is the alias when
truthy, else `target > heading` when the heading is truthy, else the target
(`if alias: ... elif heading: ... else ...`). -/
theorem c7_wiki_link (g1 : String) (g2 g3 : Option String) :
    (wikiLinkHandleMatch g1 g2 g3).tag = "a"
    ∧ (∀ hd, truthyOpt (g2.map pyStrip) = some hd →
        lookupAssoc "href" (wikiLinkHandleMatch g1 g2 g3).attrs
          = some ("/note/" ++ pyStrip g1 ++ "#" ++ pyReplaceChar (pyLower hd) ' ' '-'))
    ∧ (truthyOpt (g2.map pyStrip) = none →
        lookupAssoc "href" (wikiLinkHandleMatch g1 g2 g3).attrs
          = some ("/note/" ++ pyStrip g1))
    ∧ (∀ al, truthyOpt (g3.map pyStrip) = some al →
        (wikiLinkHandleMatch g1 g2 g3).text = al)
    ∧ (truthyOpt (g3.map pyStrip) = none →
        ∀ hd, truthyOpt (g2.map pyStrip) = some hd →
        (wikiLinkHandleMatch g1 g2 g3).text = pyStrip g1 ++ " > " ++ hd)
    ∧ (truthyOpt (g3.map pyStrip) = none → truthyOpt (g2.map pyStrip) = none →
        (wikiLinkHandleMatch g1 g2 g3).text = pyStrip g1) := by
  have hlook : ∀ href dt : String,
      lookupAssoc "href"
        [("class", "internal-link"), ("href", href), ("data-target", dt)] = some href := by
    intro href dt
    rw [lookupAssoc, if_neg (by decide), lookupAssoc, if_pos rfl]
  refine ⟨rfl, ?_, ?_, ?_, ?_, ?_⟩
  · intro hd hhd
    simp only [wikiLinkHandleMatch, hhd]
    rw [hlook]
    simp [String.append_assoc]
  · intro hnone
    simp only [wikiLinkHandleMatch, hnone]
    rw [hlook]
    rw [show ("/note/" ++ pyStrip g1) ++ "" = "/note/" ++ pyStrip g1 from
      String.ext (by simp [String.data_append])]
  · intro al hal
    simp only [wikiLinkHandleMatch, hal]
  · intro hnone hd hhd
    simp only [wikiLinkHandleMatch, hnone, hhd]
  · intro hnone3 hnone2
    simp only [wikiLinkHandleMatch, hnone3, hnone2]

/-- Witness for C7: a real heading gets a fragment and `target > heading`
precedence; a whitespace-only heading or alias behaves as absent. -/
theorem c7_wiki_link_witness :
    lookupAssoc "href" (wikiLinkHandleMatch "Note" (some "My Head") none).attrs
      = some ("/note/" ++ pyStrip "Note" ++ "#" ++ pyReplaceChar (pyLower "My Head") ' ' '-')
    ∧ lookupAssoc "href" (wikiLinkHandleMatch "Note" (some " ") none).attrs
      = some ("/note/" ++ pyStrip "Note")
    ∧ (wikiLinkHandleMatch "Note" (some " ") (some " ")).text = pyStrip "Note"
    ∧ (wikiLinkHandleMatch "Note" (some "My Head") (some "Al")).text = "Al"
    ∧ (wikiLinkHandleMatch "Note" (some "My Head") (some " ")).text
      = pyStrip "Note" ++ " > " ++ "My Head" := by
  exact ⟨(c7_wiki_link "Note" (some "My Head") none).2.1 "My Head" (by decide),
    (c7_wiki_link "Note" (some " ") none).2.2.1 (by decide),
    (c7_wiki_link "Note" (some " ") (some " ")).2.2.2.2.2 (by decide) (by decide),
    (c7_wiki_link "Note" (some "My Head") (some "Al")).2.2.2.1 "Al" (by decide),
    (c7_wiki_link "Note" (some "My Head") (some " ")).2.2.2.2.1 (by decide) "My Head"
      (by decide)⟩

/-! ## Theorems: the code highlighter (C5) -/

/-- C5: with a truthy language hint the lexer is resolved by name, otherwise
guessed from the content; if either resolution fails the plain-text lexer is
used and highlighting still runs (the function is total: it never raises);
a fenced block with no language yields the HTML-escaped `<pre><code>` block,
whose escaped body contains no raw angle brackets. -/
theorem c5_highlight_fallback {L : Type} (byName guess : String → Except Unit L)
    (textLexer : L) (hf : String → L → String) (code : String) :
    (∀ lang lx, lang ≠ "" → byName lang = .ok lx →
        highlightCode byName guess textLexer hf code (some lang) = hf code lx)
    ∧ (∀ lx, guess code = .ok lx →
        highlightCode byName guess textLexer hf code none = hf code lx)
    ∧ (∀ lang e, lang ≠ "" → byName lang = .error e →
        highlightCode byName guess textLexer hf code (some lang) = hf code textLexer)
    ∧ (∀ e, guess code = .error e →
        highlightCode byName guess textLexer hf code none = hf code textLexer)
    ∧ replaceCodeBlock byName guess textLexer hf "" code
        = "<div class=\"code-block\"><pre><code>" ++ htmlEscape code ++ "</code></pre></div>"
    ∧ (∀ c ∈ (htmlEscape code).data, c ≠ '<' ∧ c ≠ '>') := by
  refine ⟨?_, ?_, ?_, ?_, ?_, htmlEscape_no_angle code⟩
  · intro lang lx hne hok
    simp [highlightCode, hne, hok]
  · intro lx hok
    simp [highlightCode, hok]
  · intro lang e hne herr
    simp [highlightCode, hne, herr]
  · intro e herr
    simp [highlightCode, herr]
  · simp [replaceCodeBlock]

/-- Witness for C5: a by-name resolver that always fails falls back to the
text lexer for a hinted language; a contentful guess is used for an absent
one; a language-less block is escaped. -/
theorem c5_highlight_fallback_witness :
    highlightCode (fun _ => (.error () : Except Unit Unit)) (fun _ => .ok ()) ()
        (fun c _ => c) "x" (some "py") = "x"
    ∧ highlightCode (fun _ => (.error () : Except Unit Unit)) (fun _ => .ok ()) ()
        (fun c _ => c) "x" none = "x"
    ∧ replaceCodeBlock (fun _ => (.error () : Except Unit Unit)) (fun _ => .ok ()) ()
        (fun c _ => c) "" "x"
        = "<div class=\"code-block\"><pre><code>" ++ htmlEscape "x" ++ "</code></pre></div>" := by
  have h := c5_highlight_fallback (fun _ => (.error () : Except Unit Unit)) (fun _ => .ok ())
    () (fun c _ => c) "x"
  exact ⟨h.2.2.1 "py" () (by decide) rfl, h.2.1 () rfl, h.2.2.2.2.1⟩

end ObsidianMd
